import Mathlib

/-!
Verification of the reformer-fastai basic transformer and byte tokenizer.

The Python sources under verification are `basic_tokenizers.py` and
`basic_transformer.py`.  Floating-point tensors are modelled over `ℚ`,
tensors as index functions, and the exponential used by softmax as an
explicit function argument (the statements assume only the properties of
the real exponential that they need, such as strict positivity).
-/

namespace ReformerFastai

/-! ### Byte tokenizer (`basic_tokenizers.py`)

`ByteTextTokenizer.__call__(o : str)` encodes a string to UTF-8 bytes and
adds `numres = 3` to each byte; `decodes(o : list)` maps ids below
`numres` to the reserved-token byte strings, subtracts `numres` from the
rest, and decodes the byte string as UTF-8 with replacement of invalid
sequences.  We model a unicode string as its list of scalar values and
translate the UTF-8 codec that Python `str.encode` / `bytes.decode`
delegate to. -/

/-- UTF-8 encoding of one unicode scalar value, as `str.encode("utf-8")`
produces for each character. -/
def utf8EncodeChar (c : ℕ) : List ℕ :=
  if c < 0x80 then [c]
  else if c < 0x800 then [0xC0 + c / 64, 0x80 + c % 64]
  else if c < 0x10000 then [0xE0 + c / 4096, 0x80 + (c / 64) % 64, 0x80 + c % 64]
  else [0xF0 + c / 262144, 0x80 + (c / 4096) % 64, 0x80 + (c / 64) % 64, 0x80 + c % 64]

/-- The replacement character U+FFFD emitted by `bytes.decode("utf-8", "replace")`
for each maximal invalid subsequence. -/
def replacementChar : ℕ := 0xFFFD

/-- UTF-8 decoding with replacement, as `bytes.decode("utf-8", "replace")`
computes: it rejects stray continuation bytes (a continuation byte is one
in `[0x80, 0xC0)`), overlong encodings, surrogate codepoints and
codepoints above U+10FFFF. -/
def utf8Decode : List ℕ → List ℕ
  | [] => []
  | b0 :: rest =>
    if b0 < 0x80 then b0 :: utf8Decode rest
    else if b0 < 0xC2 then replacementChar :: utf8Decode rest
    else if b0 < 0xE0 then
      match rest with
      | [] => [replacementChar]
      | b1 :: rest2 =>
        if 0x80 ≤ b1 ∧ b1 < 0xC0 then ((b0 - 0xC0) * 64 + (b1 - 0x80)) :: utf8Decode rest2
        else replacementChar :: utf8Decode (b1 :: rest2)
    else if b0 < 0xF0 then
      match rest with
      | [] => [replacementChar]
      | b1 :: rest2 =>
        if (0x80 ≤ b1 ∧ b1 < 0xC0) ∧ ¬(b0 = 0xE0 ∧ b1 < 0xA0) ∧ ¬(b0 = 0xED ∧ 0xA0 ≤ b1) then
          match rest2 with
          | [] => [replacementChar]
          | b2 :: rest3 =>
            if 0x80 ≤ b2 ∧ b2 < 0xC0 then
              ((b0 - 0xE0) * 4096 + (b1 - 0x80) * 64 + (b2 - 0x80)) :: utf8Decode rest3
            else replacementChar :: utf8Decode (b2 :: rest3)
        else replacementChar :: utf8Decode (b1 :: rest2)
    else if b0 < 0xF5 then
      match rest with
      | [] => [replacementChar]
      | b1 :: rest2 =>
        if (0x80 ≤ b1 ∧ b1 < 0xC0) ∧ ¬(b0 = 0xF0 ∧ b1 < 0x90) ∧ ¬(b0 = 0xF4 ∧ 0x90 ≤ b1) then
          match rest2 with
          | [] => [replacementChar]
          | b2 :: rest3 =>
            if 0x80 ≤ b2 ∧ b2 < 0xC0 then
              match rest3 with
              | [] => [replacementChar]
              | b3 :: rest4 =>
                if 0x80 ≤ b3 ∧ b3 < 0xC0 then
                  ((b0 - 0xF0) * 262144 + (b1 - 0x80) * 4096 + (b2 - 0x80) * 64 + (b3 - 0x80))
                    :: utf8Decode rest4
                else replacementChar :: utf8Decode (b3 :: rest4)
            else replacementChar :: utf8Decode (b2 :: rest3)
        else replacementChar :: utf8Decode (b1 :: rest2)
    else replacementChar :: utf8Decode rest

/-- A unicode scalar value: any codepoint below U+110000 that is not a
surrogate.  Python `str` holds exactly these. -/
def ValidCodepoint (c : ℕ) : Prop := c < 0xD800 ∨ (0xE000 ≤ c ∧ c < 0x110000)

instance (c : ℕ) : Decidable (ValidCodepoint c) := by
  unfold ValidCodepoint; infer_instance

/-- UTF-8 encoding of a whole string (concatenation of the per-character
encodings), as `s.encode("utf-8")`. -/
def utf8EncodeString (cs : List ℕ) : List ℕ :=
  cs.foldr (fun c acc => utf8EncodeChar c ++ acc) []

theorem utf8EncodeString_cons (c : ℕ) (cs : List ℕ) :
    utf8EncodeString (c :: cs) = utf8EncodeChar c ++ utf8EncodeString cs := rfl

set_option maxRecDepth 16384 in
/-- Decoding one valid encoded character prepended to arbitrary bytes
recovers the character and continues on the remaining bytes. -/
theorem utf8Decode_encodeChar (c : ℕ) (hv : ValidCodepoint c) (bs : List ℕ) :
    utf8Decode (utf8EncodeChar c ++ bs) = c :: utf8Decode bs := by
  rcases Nat.lt_or_ge c 0x80 with h1 | h1
  · simp only [utf8EncodeChar, if_pos h1, List.cons_append, List.nil_append]
    conv_lhs => rw [utf8Decode.eq_def]
    dsimp only
    rw [if_pos h1]
  · rcases Nat.lt_or_ge c 0x800 with h2 | h2
    · have hc1 : ¬ (c < 0x80) := by omega
      simp only [utf8EncodeChar, if_neg hc1, if_pos h2, List.cons_append, List.nil_append]
      have e1 : ¬ (0xC0 + c / 64 < 0x80) := by omega
      have e2 : ¬ (0xC0 + c / 64 < 0xC2) := by omega
      have e3 : 0xC0 + c / 64 < 0xE0 := by omega
      have e4 : 0x80 ≤ 0x80 + c % 64 ∧ 0x80 + c % 64 < 0xC0 := by omega
      conv_lhs => rw [utf8Decode.eq_def]
      dsimp only
      rw [if_neg e1, if_neg e2, if_pos e3, if_pos e4]
      congr 1
      omega
    · rcases Nat.lt_or_ge c 0x10000 with h3 | h3
      · have hs : c < 0xD800 ∨ 0xE000 ≤ c := by
          rcases hv with h | h
          · exact Or.inl h
          · exact Or.inr h.1
        have hc1 : ¬ (c < 0x80) := by omega
        have hc2 : ¬ (c < 0x800) := by omega
        simp only [utf8EncodeChar, if_neg hc1, if_neg hc2, if_pos h3, List.cons_append,
          List.nil_append]
        have f1 : ¬ (0xE0 + c / 4096 < 0x80) := by omega
        have f2 : ¬ (0xE0 + c / 4096 < 0xC2) := by omega
        have f3 : ¬ (0xE0 + c / 4096 < 0xE0) := by omega
        have f4 : 0xE0 + c / 4096 < 0xF0 := by omega
        have f5 : (0x80 ≤ 0x80 + (c / 64) % 64 ∧ 0x80 + (c / 64) % 64 < 0xC0) ∧
            ¬(0xE0 + c / 4096 = 0xE0 ∧ 0x80 + (c / 64) % 64 < 0xA0) ∧
            ¬(0xE0 + c / 4096 = 0xED ∧ 0xA0 ≤ 0x80 + (c / 64) % 64) := by omega
        have f6 : 0x80 ≤ 0x80 + c % 64 ∧ 0x80 + c % 64 < 0xC0 := by omega
        conv_lhs => rw [utf8Decode.eq_def]
        dsimp only
        rw [if_neg f1, if_neg f2, if_neg f3, if_pos f4, if_pos f5, if_pos f6]
        congr 1
        omega
      · have h4 : c < 0x110000 := by
          rcases hv with h | h
          · omega
          · exact h.2
        have hc1 : ¬ (c < 0x80) := by omega
        have hc2 : ¬ (c < 0x800) := by omega
        have hc3 : ¬ (c < 0x10000) := by omega
        simp only [utf8EncodeChar, if_neg hc1, if_neg hc2, if_neg hc3, List.cons_append,
          List.nil_append]
        have g1 : ¬ (0xF0 + c / 262144 < 0x80) := by omega
        have g2 : ¬ (0xF0 + c / 262144 < 0xC2) := by omega
        have g3 : ¬ (0xF0 + c / 262144 < 0xE0) := by omega
        have g4 : ¬ (0xF0 + c / 262144 < 0xF0) := by omega
        have g5 : 0xF0 + c / 262144 < 0xF5 := by omega
        have g6 : (0x80 ≤ 0x80 + (c / 4096) % 64 ∧ 0x80 + (c / 4096) % 64 < 0xC0) ∧
            ¬(0xF0 + c / 262144 = 0xF0 ∧ 0x80 + (c / 4096) % 64 < 0x90) ∧
            ¬(0xF0 + c / 262144 = 0xF4 ∧ 0x90 ≤ 0x80 + (c / 4096) % 64) := by omega
        have g7 : 0x80 ≤ 0x80 + (c / 64) % 64 ∧ 0x80 + (c / 64) % 64 < 0xC0 := by omega
        have g8 : 0x80 ≤ 0x80 + c % 64 ∧ 0x80 + c % 64 < 0xC0 := by omega
        conv_lhs => rw [utf8Decode.eq_def]
        dsimp only
        rw [if_neg g1, if_neg g2, if_neg g3, if_neg g4, if_pos g5, if_pos g6, if_pos g7,
          if_pos g8]
        congr 1
        omega

/-- UTF-8 round trip on lists of valid codepoints. -/
theorem utf8_roundtrip (cs : List ℕ) (h : ∀ c ∈ cs, ValidCodepoint c) :
    utf8Decode (utf8EncodeString cs) = cs := by
  induction cs with
  | nil => rfl
  | cons c cs ih =>
    rw [utf8EncodeString_cons, utf8Decode_encodeChar c (h c (by simp)) _,
      ih (fun c hc => h c (by simp [hc]))]

/-- Count of reserved tokens of ByteTextTokenizer: pad, eos, bos. -/
def numres : ℕ := 3

/-- The ASCII byte strings of the reserved tokens, as
bytes(rtok, "ascii") for "<pad>", "<eos>", "<bos>". -/
def reservedTokensBytes : ℕ → List ℕ
  | 0 => [60, 112, 97, 100, 62]
  | 1 => [60, 101, 111, 115, 62]
  | _ => [60, 98, 111, 115, 62]

/-- ByteTextTokenizer.__call__ on a single string, with the default
construction (add_bos and add_eos both False, so no sentinel ids are
inserted): each UTF-8 byte of the string offset by numres. -/
def byteTextTokenizerEncode (cs : List ℕ) : List ℕ :=
  (utf8EncodeString cs).map (· + numres)

/-- ByteTextTokenizer.decodes on a list of ids (the overload reached from
tensor inputs via tolist): ids below numres map to the reserved-token byte
strings, every other id to the single byte id - numres; the concatenated
bytes are decoded as UTF-8 with replacement. -/
def byteTextTokenizerDecode (ids : List ℕ) : List ℕ :=
  utf8Decode
    (ids.foldr (fun i acc => (if i < numres then reservedTokensBytes i else [i - numres]) ++ acc) [])

/-- Un-offsetting the encoded ids recovers exactly the UTF-8 byte string:
every encoded id is at least numres, so the reserved-token branch is never
taken on encoder output. -/
theorem decode_bytes_of_encode (bs : List ℕ) :
    (bs.map (· + numres)).foldr
      (fun i acc => (if i < numres then reservedTokensBytes i else [i - numres]) ++ acc) []
      = bs := by
  induction bs with
  | nil => rfl
  | cons b bs ih =>
    simp only [List.map_cons, List.foldr_cons]
    rw [if_neg (by simp only [numres]; omega), ih]
    simp [numres]

/-- C6: for every valid unicode string s (modelled as its list of unicode
scalar values), decoding the default ByteTextTokenizer encoding of s
returns s. -/
theorem C6_tokenizer_roundtrip (s : List ℕ) (hs : ∀ c ∈ s, ValidCodepoint c) :
    byteTextTokenizerDecode (byteTextTokenizerEncode s) = s := by
  unfold byteTextTokenizerDecode byteTextTokenizerEncode
  rw [decode_bytes_of_encode, utf8_roundtrip s hs]

/-- Witness for C6 on the concrete string "hé€𐍈" (one, two, three and four
byte UTF-8 encodings). -/
theorem C6_witness :
    (∀ c ∈ [104, 233, 8364, 66376], ValidCodepoint c) ∧
      byteTextTokenizerDecode (byteTextTokenizerEncode [104, 233, 8364, 66376])
        = [104, 233, 8364, 66376] :=
  ⟨by decide, C6_tokenizer_roundtrip [104, 233, 8364, 66376] (by decide)⟩

/-! ### Shape semantics of the model forward passes (`basic_transformer.py`)

Shapes are torch sizes, lists of dimension extents; a forward step that
raises (IndexError, unpacking error, out-of-range embedding lookup,
failed broadcast) is modelled as `none`. -/

/-- A tensor shape. -/
abbrev Shape := List ℕ

/-- Output shape of nn.Embedding(num_embeddings, dim) applied to an id
tensor: the feature dimension is appended to the id shape (ids assumed in
range by the caller). -/
def embeddingForwardShape (dim : ℕ) (s : Shape) : Shape := s ++ [dim]

/-- AbsolutePositionalEmbedding.forward: reads x.shape[1], which raises
IndexError when x has fewer than two dimensions (modelled as none), and
returns the table lookup of torch.arange(x.shape[1]), in range only when
x.shape[1] ≤ max_seq_len. -/
def absolutePositionalEmbeddingForwardShape (maxSeqLen dim : ℕ) (s : Shape) : Option Shape :=
  match s[1]? with
  | none => none
  | some n => if n ≤ maxSeqLen then some (embeddingForwardShape dim [n]) else none

/-- Whether shape p broadcasts to the target shape (aligned at the trailing
dimensions), as the in-place += in TransformerEmbedding.forward requires
of the positional-encoding output. -/
def broadcastsTo (p target : Shape) : Bool :=
  decide (p.length ≤ target.length) &&
    (List.zip p.reverse target.reverse).all (fun q => q.1 == q.2 || q.1 == 1)

/-- TransformerEmbedding.forward: unpacks x.shape as two dimensions (batch,
n), embeds the ids to (batch, n, dim), then adds
pos_enc(torch.arange(n)) in place; the argument handed to pos_enc is the
one-dimensional tensor torch.arange(n), of shape (n,). -/
def transformerEmbeddingForwardShape (dim maxSeqLen : ℕ) (s : Shape) : Option Shape :=
  match s with
  | [b, n] =>
    let e := embeddingForwardShape dim [b, n]
    match absolutePositionalEmbeddingForwardShape maxSeqLen dim [n] with
    | none => none
    | some p => if broadcastsTo p e then some e else none
  | _ => none

/-- Attention.forward output shape: preserves (batch, seq, dim); requires
the feature dimension to match the projection width. -/
def attentionForwardShape (dim : ℕ) (s : Shape) : Option Shape :=
  match s with
  | [b, n, d] => if d = dim then some [b, n, d] else none
  | _ => none

/-- FeedForward.forward output shape: dim to 4·dim and back, so the input
shape is preserved. -/
def feedForwardShape (dim : ℕ) (s : Shape) : Option Shape :=
  match s with
  | [b, n, d] => if d = dim then some [b, n, d] else none
  | _ => none

/-- TransformerEncoderBlock.forward output shape: residually wrapped
attention, then residually wrapped feed-forward. -/
def transformerEncoderBlockShape (dim : ℕ) (s : Shape) : Option Shape :=
  (attentionForwardShape dim s).bind (feedForwardShape dim)

/-- TransformerEncoder.forward output shape: depth sequential blocks. -/
def transformerEncoderShape (dim : ℕ) : ℕ → Shape → Option Shape
  | 0, s => some s
  | d + 1, s => (transformerEncoderBlockShape dim s).bind (transformerEncoderShape dim d)

/-- nn.Linear(inF, outF) output shape: replaces a matching last dimension. -/
def linearForwardShape (inF outF : ℕ) (s : Shape) : Option Shape :=
  match s.getLast? with
  | none => none
  | some d => if d = inF then some (s.dropLast ++ [outF]) else none

/-- TransformerLM.forward shape: embedding, then the encoder stack, then the
output projection to vocab_sz logits. -/
def transformerLMForwardShape (vocabSz dim depth _heads maxSeqLen : ℕ) (s : Shape) :
    Option Shape :=
  (transformerEmbeddingForwardShape dim maxSeqLen s).bind fun e =>
    (transformerEncoderShape dim depth e).bind fun t =>
      linearForwardShape dim vocabSz t

/-- TransformerEmbedding.forward raises on every two-dimensional input:
pos_enc receives the one-dimensional torch.arange(n), and its read of
x.shape[1] is an IndexError. -/
theorem transformerEmbeddingForwardShape_always_none (dim maxSeqLen b n : ℕ) :
    transformerEmbeddingForwardShape dim maxSeqLen [b, n] = none := rfl

/-- C2: the claim fails on the code.  The forward pass of a TransformerLM
with vocab_sz 260, dim 32, depth 2, heads 4 on an input of shape (1, 5)
does not complete: TransformerEmbedding.forward hands torch.arange(5), a
one-dimensional tensor, to AbsolutePositionalEmbedding.forward, whose read
of x.shape[1] raises IndexError, so no logits tensor of shape (1, 5, 260)
is returned. -/
theorem C2_forward_crashes :
    transformerLMForwardShape 260 32 2 4 512 [1, 5] = none := rfl

/-! ### Attention, numeric semantics over ℚ

Tensors are index functions (batch, position, feature).  The softmax
exponential is a function argument: the theorems assume of it only what
they need (strict positivity), which the real exponential satisfies, and
the concrete counterexamples and witnesses instantiate it with a
computable strictly positive surrogate. -/

/-- MASK_VAL of basic_transformer.py: -1e4 instead of negative infinity, to
make fp16 work. -/
def MASK_VAL : ℚ := -10000

/-- A floating tensor with batch, position and feature indices. -/
abbrev Tens : Type := ℕ → ℕ → ℕ → ℚ

/-- A boolean mask with batch and position indices. -/
abbrev BMask : Type := ℕ → ℕ → Bool

/-- Construction-time state of Attention: dim, heads, the causal flag and
the stored scale.  The source sets scale to dim ** -0.5, which has no
exact rational value for general dim, so theorems carry the scale as data
and characterize it with IsPowNegHalf where a claim depends on its
value. -/
structure AttnCfg where
  dim : ℕ
  heads : ℕ
  causal : Bool
  scale : ℚ

/-- s equals b ** -0.5: s is nonnegative and s squared times b is one.
This characterizes the Python power exactly and avoids irrational
values. -/
def IsPowNegHalf (b : ℚ) (s : ℚ) : Prop := 0 ≤ s ∧ s * s * b = 1

/-- Attention.__init__(dim, heads, causal, ...): stores causal, heads and
scale, with scale set to dim ** -0.5 computed from the full model
dimension dim (line 85 of basic_transformer.py). -/
def attentionInit (dim heads : ℕ) (causal : Bool) (cfg : AttnCfg) : Prop :=
  cfg.dim = dim ∧ cfg.heads = heads ∧ cfg.causal = causal ∧ IsPowNegHalf (dim : ℚ) cfg.scale

/-- The projection parameters of Attention: to_q and to_kv carry no bias;
to_out has weight and bias. -/
structure AttnParams where
  wq : ℕ → ℕ → ℚ
  wkv : ℕ → ℕ → ℚ
  wo : ℕ → ℕ → ℚ
  bo : ℕ → ℚ

/-- nn.Linear with no bias on a (batch, pos, feature) tensor:
y b i o = Σ_f w o f · x b i f. -/
def linearNoBias (w : ℕ → ℕ → ℚ) (inDim : ℕ) (x : Tens) : Tens :=
  fun b i o => ∑ f ∈ Finset.range inDim, w o f * x b i f

/-- Per-head feature width dim // heads, realized by the einops rearrange
pattern from (h d) to separate head and feature axes. -/
def headDim (cfg : AttnCfg) : ℕ := cfg.dim / cfg.heads

/-- Queries per head: to_q(x) rearranged to (batch, head, pos, d), so head
t, feature d reads flat feature t · headDim + d. -/
def qHead (cfg : AttnCfg) (p : AttnParams) (x : Tens) : ℕ → ℕ → ℕ → ℕ → ℚ :=
  fun b t i d => linearNoBias p.wq cfg.dim x b i (t * headDim cfg + d)

/-- Keys per head: first chunk (columns below dim) of to_kv(kv_input),
rearranged like the queries. -/
def kHead (cfg : AttnCfg) (p : AttnParams) (kvIn : Tens) : ℕ → ℕ → ℕ → ℕ → ℚ :=
  fun b t j d => linearNoBias p.wkv cfg.dim kvIn b j (t * headDim cfg + d)

/-- Values per head: second chunk (columns from dim up) of to_kv(kv_input),
rearranged like the queries. -/
def vHead (cfg : AttnCfg) (p : AttnParams) (kvIn : Tens) : ℕ → ℕ → ℕ → ℕ → ℚ :=
  fun b t j d => linearNoBias p.wkv cfg.dim kvIn b j (cfg.dim + t * headDim cfg + d)

/-- The scaled dot products, einsum bhid, bhjd to bhij, times the stored
scale. -/
def rawDots (cfg : AttnCfg) (p : AttnParams) (x kvIn : Tens) : ℕ → ℕ → ℕ → ℕ → ℚ :=
  fun b t i j =>
    (∑ d ∈ Finset.range (headDim cfg), qHead cfg p x b t i d * kHead cfg p kvIn b t j d)
      * cfg.scale

/-- The combined boolean input mask (true means attend): built only when a
mask or context mask is supplied; the query mask defaults to all-ones, the
key mask is the query mask for self-attention and otherwise the context
mask defaulting to all-ones; the combination is their outer product. -/
def inputMask (hasCtx : Bool) (mask ctxMask : Option BMask) : Option (ℕ → ℕ → ℕ → Bool) :=
  if mask.isSome || ctxMask.isSome then
    let qm := mask.getD (fun _ _ => true)
    let km := (if hasCtx then ctxMask else some qm).getD (fun _ _ => true)
    some (fun b i j => qm b i && km b j)
  else none

/-- dots.masked_fill_(~input_mask, MASK_VAL): positions whose combined mask
is false are overwritten with MASK_VAL. -/
def fillInputMask (im : Option (ℕ → ℕ → ℕ → Bool)) (d : ℕ → ℕ → ℕ → ℕ → ℚ) :
    ℕ → ℕ → ℕ → ℕ → ℚ :=
  fun b t i j =>
    match im with
    | none => d b t i j
    | some f => if f b i j then d b t i j else MASK_VAL

/-- The causal fill: when the causal flag is set, the strict upper triangle
with offset m - n + 1 (key length minus query length plus one, the triu
diagonal argument) is overwritten with MASK_VAL. -/
def fillCausal (cfg : AttnCfg) (n m : ℕ) (d : ℕ → ℕ → ℕ → ℕ → ℚ) : ℕ → ℕ → ℕ → ℕ → ℚ :=
  fun b t i j =>
    if cfg.causal ∧ ((m : ℤ) - (n : ℤ) + 1 ≤ (j : ℤ) - (i : ℤ)) then MASK_VAL else d b t i j

/-- Key length, k.shape[-2]: the context length when a context is given,
else the query length. -/
def keyLen (n : ℕ) (ctx : Option (ℕ × Tens)) : ℕ :=
  match ctx with
  | some c => c.1
  | none => n

/-- Attention.forward up to the fully masked similarity matrix (batch,
head, query, key): projections, head split, scaled dot products, then the
input-mask fill followed by the causal fill, in source order. -/
def attnScores (cfg : AttnCfg) (p : AttnParams) (n : ℕ) (x : Tens)
    (ctx : Option (ℕ × Tens)) (mask ctxMask : Option BMask) : ℕ → ℕ → ℕ → ℕ → ℚ :=
  let kvIn := match ctx with | some c => c.2 | none => x
  fillCausal cfg n (keyLen n ctx)
    (fillInputMask (inputMask ctx.isSome mask ctxMask) (rawDots cfg p x kvIn))

/-- The attention weights after the row softmax over key positions (the
tensor attn of the source, before dropout), with the exponential passed
explicitly. -/
def attnWeights (rexp : ℚ → ℚ) (cfg : AttnCfg) (p : AttnParams) (n : ℕ) (x : Tens)
    (ctx : Option (ℕ × Tens)) (mask ctxMask : Option BMask) : ℕ → ℕ → ℕ → ℕ → ℚ :=
  fun b t i j =>
    rexp (attnScores cfg p n x ctx mask ctxMask b t i j) /
      ∑ k ∈ Finset.range (keyLen n ctx), rexp (attnScores cfg p n x ctx mask ctxMask b t i k)

/-- The attention output: weighted sum of values per head (dropout on the
weights is the identity at inference), heads merged back to the flat
feature axis, then the output projection to_out. -/
def attnOut (rexp : ℚ → ℚ) (cfg : AttnCfg) (p : AttnParams) (n : ℕ) (x : Tens)
    (ctx : Option (ℕ × Tens)) (mask ctxMask : Option BMask) : Tens :=
  let kvIn := match ctx with | some c => c.2 | none => x
  fun b i o =>
    (∑ f ∈ Finset.range cfg.dim, p.wo o f *
      ∑ j ∈ Finset.range (keyLen n ctx),
        attnWeights rexp cfg p n x ctx mask ctxMask b (f / headDim cfg) i j *
          vHead cfg p kvIn b (f / headDim cfg) j (f % headDim cfg)) + p.bo o

/-- Pointwise reading of attnWeights. -/
theorem attnWeights_apply (rexp : ℚ → ℚ) (cfg : AttnCfg) (p : AttnParams) (n : ℕ) (x : Tens)
    (ctx : Option (ℕ × Tens)) (mask ctxMask : Option BMask) (b t i j : ℕ) :
    attnWeights rexp cfg p n x ctx mask ctxMask b t i j =
      rexp (attnScores cfg p n x ctx mask ctxMask b t i j) /
        ∑ k ∈ Finset.range (keyLen n ctx), rexp (attnScores cfg p n x ctx mask ctxMask b t i k) :=
  rfl

/-- Pointwise reading of attnScores for self-attention without masks. -/
theorem attnScores_self_nomask (cfg : AttnCfg) (p : AttnParams) (n : ℕ) (x : Tens)
    (b t i j : ℕ) :
    attnScores cfg p n x none none none b t i j =
      if cfg.causal ∧ ((n : ℤ) - (n : ℤ) + 1 ≤ (j : ℤ) - (i : ℤ)) then MASK_VAL
      else rawDots cfg p x x b t i j :=
  rfl

/-- Pointwise reading of attnScores for self-attention under a padding
mask. -/
theorem attnScores_self_mask (cfg : AttnCfg) (p : AttnParams) (n : ℕ) (x : Tens) (m : BMask)
    (b t i j : ℕ) :
    attnScores cfg p n x none (some m) none b t i j =
      if cfg.causal ∧ ((n : ℤ) - (n : ℤ) + 1 ≤ (j : ℤ) - (i : ℤ)) then MASK_VAL
      else if m b i && m b j then rawDots cfg p x x b t i j else MASK_VAL :=
  rfl

/-- A computable, strictly positive, strictly monotone stand-in for the
real exponential, used to instantiate concrete counterexamples and
witnesses. -/
def posExp (q : ℚ) : ℚ := if q < 0 then 1 / (1 - q) else 1 + q

theorem posExp_pos (q : ℚ) : 0 < posExp q := by
  unfold posExp
  split_ifs with h
  · apply div_pos one_pos
    linarith
  · push_neg at h
    linarith

/-- All-ones attention parameters for the concrete instances. -/
def onesAttnParams : AttnParams := ⟨fun _ _ => 1, fun _ _ => 1, fun _ _ => 1, fun _ => 0⟩

/-- Constant-one input tensor for the concrete instances. -/
def onesTens : Tens := fun _ _ _ => 1

/-- A padding mask keeping only key position zero. -/
def maskFirstOnly : BMask := fun _ j => j == 0

/-- C1 fails as stated on the code: with the causal fill value MASK_VAL =
-10000 rather than negative infinity, the softmax weight of a future
position is a strictly positive rational, not exactly zero.  Concretely,
for a causal Attention with dim 1, head 1, all-ones projections and
constant-one input of length 2, the weight from query position 0 to key
position 1 equals 1/20003 under the strictly positive exponential
posExp. -/
theorem C1_counterexample :
    (∀ q : ℚ, 0 < posExp q) ∧
      attnWeights posExp ⟨1, 1, true, 1⟩ onesAttnParams 2 onesTens none none none 0 0 0 1
          = 1 / 20003 ∧
      attnWeights posExp ⟨1, 1, true, 1⟩ onesAttnParams 2 onesTens none none none 0 0 0 1
          ≠ 0 := by
  have hval : attnWeights posExp ⟨1, 1, true, 1⟩ onesAttnParams 2 onesTens none none none
      0 0 0 1 = 1 / 20003 := by
    simp only [attnWeights, attnScores, keyLen, fillCausal, fillInputMask, inputMask, rawDots,
      qHead, kHead, linearNoBias, headDim, onesAttnParams, onesTens, posExp, MASK_VAL,
      Finset.sum_range_succ, Finset.sum_range_zero]
    norm_num
  exact ⟨posExp_pos, hval, by rw [hval]; norm_num⟩

/-- C1 amended: for every causal Attention (any scale and projection
weights), in self-attention without padding mask, for every batch, head
and positions i < j with i < n, the pre-softmax score from i to j is
exactly MASK_VAL = -10000, and for every strictly positive exponential the
post-softmax weight is strictly positive — not exactly zero — but bounded:
weight times exp of the diagonal score is at most exp MASK_VAL, so the
weight is astronomically small for the real exponential and reaches zero
only by floating-point underflow. -/
theorem C1_causal_fill_bound (rexp : ℚ → ℚ) (hexp : ∀ q, 0 < rexp q) (cfg : AttnCfg)
    (hc : cfg.causal = true) (p : AttnParams) (n : ℕ) (x : Tens) (b t i j : ℕ)
    (hi : i < n) (hij : i < j) :
    attnScores cfg p n x none none none b t i j = MASK_VAL ∧
      0 < attnWeights rexp cfg p n x none none none b t i j ∧
      attnWeights rexp cfg p n x none none none b t i j *
          rexp (attnScores cfg p n x none none none b t i i) ≤ rexp MASK_VAL := by
  have hsc : attnScores cfg p n x none none none b t i j = MASK_VAL := by
    rw [attnScores_self_nomask, if_pos ⟨hc, by omega⟩]
  have hS : 0 < ∑ k ∈ Finset.range (keyLen n none),
      rexp (attnScores cfg p n x none none none b t i k) :=
    Finset.sum_pos (fun k _ => hexp _) ⟨i, Finset.mem_range.mpr hi⟩
  have hle : rexp (attnScores cfg p n x none none none b t i i) ≤
      ∑ k ∈ Finset.range (keyLen n none),
        rexp (attnScores cfg p n x none none none b t i k) :=
    Finset.single_le_sum (fun k _ => (hexp _).le) (Finset.mem_range.mpr hi)
  refine ⟨hsc, ?_, ?_⟩
  · rw [attnWeights_apply]
    exact div_pos (hexp _) hS
  · rw [attnWeights_apply, hsc, div_mul_eq_mul_div, div_le_iff₀ hS]
    exact mul_le_mul_of_nonneg_left hle (hexp MASK_VAL).le

/-- Witness for C1 at the concrete causal instance of the counterexample. -/
theorem C1_witness :
    attnScores ⟨1, 1, true, 1⟩ onesAttnParams 2 onesTens none none none 0 0 0 1 = MASK_VAL ∧
      0 < attnWeights posExp ⟨1, 1, true, 1⟩ onesAttnParams 2 onesTens none none none 0 0 0 1 ∧
      attnWeights posExp ⟨1, 1, true, 1⟩ onesAttnParams 2 onesTens none none none 0 0 0 1 *
          posExp (attnScores ⟨1, 1, true, 1⟩ onesAttnParams 2 onesTens none none none 0 0 0 0)
        ≤ posExp MASK_VAL :=
  C1_causal_fill_bound posExp posExp_pos ⟨1, 1, true, 1⟩ rfl onesAttnParams 2 onesTens 0 0 0 1
    (by omega) (by omega)

/-- C3 fails as stated on the code: a key position whose padding-mask entry
is false has its score filled with MASK_VAL = -10000, not negative
infinity, so its softmax weight is strictly positive, not exactly zero.
Concretely, with dim 1, head 1, all-ones projections, constant-one input
of length 2 and the mask keeping only position 0, the weight from query 0
to the masked key 1 equals 1/20003 under posExp. -/
theorem C3_counterexample :
    maskFirstOnly 0 1 = false ∧
      attnWeights posExp ⟨1, 1, false, 1⟩ onesAttnParams 2 onesTens none (some maskFirstOnly)
          none 0 0 0 1 = 1 / 20003 ∧
      attnWeights posExp ⟨1, 1, false, 1⟩ onesAttnParams 2 onesTens none (some maskFirstOnly)
          none 0 0 0 1 ≠ 0 := by
  have hval : attnWeights posExp ⟨1, 1, false, 1⟩ onesAttnParams 2 onesTens none
      (some maskFirstOnly) none 0 0 0 1 = 1 / 20003 := by
    simp only [attnWeights, attnScores, keyLen, fillCausal, fillInputMask, inputMask, rawDots,
      qHead, kHead, linearNoBias, headDim, onesAttnParams, onesTens, posExp, MASK_VAL,
      Finset.sum_range_succ, Finset.sum_range_zero]
    norm_num [maskFirstOnly]
  exact ⟨rfl, hval, by rw [hval]; norm_num⟩

/-- C3 amended: in a self-attention forward call with a padding mask, every
key position j whose mask entry is false gets pre-softmax score exactly
MASK_VAL = -10000 from every query position, and for every strictly
positive exponential its post-softmax weight is strictly positive — not
exactly zero, and its contribution to the weighted value sum is therefore
not exactly nothing — but bounded relative to every in-range score:
weight times exp of any row score is at most exp MASK_VAL. -/
theorem C3_padding_fill_bound (rexp : ℚ → ℚ) (hexp : ∀ q, 0 < rexp q) (cfg : AttnCfg)
    (p : AttnParams) (n : ℕ) (x : Tens) (m : BMask) (b t i j : ℕ)
    (hm : m b j = false) (hj : j < n) :
    attnScores cfg p n x none (some m) none b t i j = MASK_VAL ∧
      0 < attnWeights rexp cfg p n x none (some m) none b t i j ∧
      ∀ k, k < n →
        attnWeights rexp cfg p n x none (some m) none b t i j *
            rexp (attnScores cfg p n x none (some m) none b t i k) ≤ rexp MASK_VAL := by
  have hsc : attnScores cfg p n x none (some m) none b t i j = MASK_VAL := by
    rw [attnScores_self_mask]
    simp [hm]
  have hS : 0 < ∑ k ∈ Finset.range (keyLen n none),
      rexp (attnScores cfg p n x none (some m) none b t i k) :=
    Finset.sum_pos (fun k _ => hexp _) ⟨j, Finset.mem_range.mpr hj⟩
  refine ⟨hsc, ?_, ?_⟩
  · rw [attnWeights_apply]
    exact div_pos (hexp _) hS
  · intro k hk
    rw [attnWeights_apply, hsc, div_mul_eq_mul_div, div_le_iff₀ hS]
    exact mul_le_mul_of_nonneg_left
      (Finset.single_le_sum (fun _ _ => (hexp _).le) (Finset.mem_range.mpr hk))
      (hexp MASK_VAL).le

/-- Witness for C3 at the concrete masked instance of the counterexample. -/
theorem C3_witness :
    attnScores ⟨1, 1, false, 1⟩ onesAttnParams 2 onesTens none (some maskFirstOnly) none
        0 0 0 1 = MASK_VAL ∧
      0 < attnWeights posExp ⟨1, 1, false, 1⟩ onesAttnParams 2 onesTens none
          (some maskFirstOnly) none 0 0 0 1 ∧
      ∀ k, k < 2 →
        attnWeights posExp ⟨1, 1, false, 1⟩ onesAttnParams 2 onesTens none (some maskFirstOnly)
              none 0 0 0 1 *
            posExp (attnScores ⟨1, 1, false, 1⟩ onesAttnParams 2 onesTens none
              (some maskFirstOnly) none 0 0 0 k) ≤ posExp MASK_VAL :=
  C3_padding_fill_bound posExp posExp_pos ⟨1, 1, false, 1⟩ onesAttnParams 2 onesTens
    maskFirstOnly 0 0 0 1 rfl (by omega)

/-- C4 fails as stated on the code: Attention.__init__ stores
scale = dim ** -0.5 computed from the full model dimension, not from the
per-head dimension dim/heads.  Concretely, with dim 4 and heads 4 the
stored scale 1/2 satisfies the full-dimension characterization but not the
claimed per-head one, whose value would be (4/4) ** -0.5 = 1. -/
theorem C4_counterexample :
    attentionInit 4 4 false ⟨4, 4, false, 1 / 2⟩ ∧
      ¬ IsPowNegHalf (((4 : ℕ) : ℚ) / ((4 : ℕ) : ℚ)) (AttnCfg.mk 4 4 false (1 / 2)).scale := by
  constructor
  · exact ⟨rfl, rfl, rfl, by norm_num [IsPowNegHalf]⟩
  · norm_num [IsPowNegHalf]

/-- C4 amended: the similarity matrix is scaled by dim ** -0.5 computed
from the full model dimension (rawDots multiplies by the stored scale, and
attentionInit characterizes that scale by scale² · dim = 1); this agrees
with the per-head factor (dim/heads) ** -0.5 of the claim exactly when
heads = 1. -/
theorem C4_scale_uses_full_dim (dim heads : ℕ) (causal : Bool) (cfg : AttnCfg)
    (hh : 0 < heads) (h : attentionInit dim heads causal cfg) :
    IsPowNegHalf ((dim : ℚ) / (heads : ℚ)) cfg.scale ↔ heads = 1 := by
  obtain ⟨-, -, -, hs0, hs⟩ := h
  have hh0 : (heads : ℚ) ≠ 0 := Nat.cast_ne_zero.mpr hh.ne'
  constructor
  · rintro ⟨-, hq⟩
    rw [← mul_div_assoc, hs] at hq
    have : (heads : ℚ) = 1 := by
      field_simp at hq
      linarith
    exact_mod_cast this
  · rintro rfl
    refine ⟨hs0, ?_⟩
    rw [Nat.cast_one, div_one]
    exact hs

/-- Witness for C4 at the single-head instance dim 1, heads 1, where the
full-dimension scale and the per-head scale coincide. -/
theorem C4_witness :
    IsPowNegHalf (((1 : ℕ) : ℚ) / ((1 : ℕ) : ℚ)) (AttnCfg.mk 1 1 true 1).scale ↔ (1 : ℕ) = 1 :=
  C4_scale_uses_full_dim 1 1 true ⟨1, 1, true, 1⟩ (by omega)
    ⟨rfl, rfl, rfl, by norm_num [IsPowNegHalf]⟩

/-! ### FeedForward (`basic_transformer.py` lines 54-65) -/

/-- The feed-forward parameters: two linear layers with bias. -/
structure FFParams where
  w1 : ℕ → ℕ → ℚ
  b1 : ℕ → ℚ
  w2 : ℕ → ℕ → ℚ
  b2 : ℕ → ℚ

/-- The hidden width built by FeedForward.__init__(dim, mult, dropout):
the source constructs nn.Linear(dim, dim * 4) and nn.Linear(dim * 4, dim),
never reading the mult argument. -/
def feedForwardHiddenDim (dim _mult : ℕ) : ℕ := dim * 4

/-- FeedForward.forward at one sequence position, at inference (the two
dropout layers are the identity in eval mode): linear to the hidden width,
the gelu nonlinearity (carried as a function argument, since its exact
value is irrelevant here), linear back to dim. -/
def feedForwardForward (gelu : ℚ → ℚ) (dim mult : ℕ) (p : FFParams) (x : ℕ → ℚ) : ℕ → ℚ :=
  fun o =>
    (∑ h ∈ Finset.range (feedForwardHiddenDim dim mult),
      p.w2 o h * gelu ((∑ f ∈ Finset.range dim, p.w1 h f * x f) + p.b1 h)) + p.b2 o

/-- C9: the mult parameter of FeedForward has no effect: the hidden layer
width is fixed at 4·dim, and with the same dimension and parameters the
blocks built with any two mult values compute the same function. -/
theorem C9_mult_unused (dim m1 m2 : ℕ) (gelu : ℚ → ℚ) (p : FFParams) (x : ℕ → ℚ) (o : ℕ) :
    feedForwardHiddenDim dim m1 = 4 * dim ∧
      feedForwardForward gelu dim m1 p x o = feedForwardForward gelu dim m2 p x o :=
  ⟨Nat.mul_comm dim 4, rfl⟩

/-! ### Construction-time attribute semantics

TransformerEmbedding.__init__ and TransformerEncDec.__init__ read
attributes that may not exist; Python raises AttributeError for a name
that is neither an instance attribute assigned so far nor a class
method.  Construction is modelled in the Except monad. -/

/-- Python attribute lookup: the name must be among the given attributes
(instance attributes assigned so far plus class methods), else the access
raises AttributeError. -/
def pyGetattr (attrs : List String) (name : String) : Except String Unit :=
  if name ∈ attrs then Except.ok () else Except.error ("AttributeError: " ++ name)

/-- The positional-encoding submodules reachable at construction. -/
inductive PosEncModule
  | absolute (maxSeqLen dim : ℕ)
deriving DecidableEq

/-- Constructed TransformerEmbedding state: the token-embedding table shape
and the positional-encoding submodule (none when the attribute was never
assigned). -/
structure TransformerEmbeddingM where
  emb_sz : ℕ
  dim : ℕ
  posEnc : Option PosEncModule
deriving DecidableEq

/-- The methods of the TransformerEmbedding class. -/
def transformerEmbeddingMethods : List String := ["forward", "_init"]

/-- TransformerEmbedding.__init__(emb_sz, dim, max_seq_len, dropout,
pos_enc): assigns self.emb; on "absolute" assigns
AbsolutePositionalEmbedding(dim, max_seq_len) to self.pos_enc (and the
later self._init() call is harmless, since getattr(self.pos_enc, ...,
None) with a default returns None for that submodule); on "fixed"
evaluates self.FixedPositionalEmbedding(dim), an attribute neither the
instance nor the class defines, so the lookup raises AttributeError
before self.pos_enc is ever assigned; on "axial" raises
NotImplementedError; on any other value self.pos_enc is never assigned
and the read of self.pos_enc inside self._init() raises AttributeError. -/
def transformerEmbeddingInit (emb_sz dim max_seq_len : ℕ) (_dropout : ℚ) (pos_enc : String) :
    Except String TransformerEmbeddingM :=
  if pos_enc = "absolute" then
    Except.ok ⟨emb_sz, dim, some (PosEncModule.absolute max_seq_len dim)⟩
  else if pos_enc = "fixed" then
    (pyGetattr ("emb" :: transformerEmbeddingMethods) "FixedPositionalEmbedding").bind
      fun _ => Except.ok ⟨emb_sz, dim, none⟩
  else if pos_enc = "axial" then
    Except.error "NotImplementedError"
  else
    (pyGetattr ("emb" :: "dropout" :: transformerEmbeddingMethods) "pos_enc").bind
      fun _ => Except.ok ⟨emb_sz, dim, none⟩

/-- C8: constructing a TransformerEmbedding with pos_enc "axial" raises
NotImplementedError immediately at construction time, for every choice of
the other arguments. -/
theorem C8_axial_raises (emb_sz dim max_seq_len : ℕ) (dropout : ℚ) :
    transformerEmbeddingInit emb_sz dim max_seq_len dropout "axial"
      = Except.error "NotImplementedError" := rfl

/-- C10: constructing a TransformerEmbedding with pos_enc "fixed" fails
with an AttributeError (the constructor calls the nonexistent
self.FixedPositionalEmbedding and never assigns pos_enc), and "absolute"
is the only pos_enc value for which construction succeeds at all. -/
theorem C10_fixed_attribute_error (emb_sz dim max_seq_len : ℕ) (dropout : ℚ) :
    transformerEmbeddingInit emb_sz dim max_seq_len dropout "fixed"
        = Except.error "AttributeError: FixedPositionalEmbedding" ∧
      ∀ pos_enc : String,
        (∃ st, transformerEmbeddingInit emb_sz dim max_seq_len dropout pos_enc
            = Except.ok st) ↔ pos_enc = "absolute" := by
  constructor
  · rfl
  · intro pe
    unfold transformerEmbeddingInit
    split_ifs with h1 h2 h3 <;>
      simp_all [pyGetattr, transformerEmbeddingMethods, Except.bind]

/-- The methods of the TransformerEncDec class. -/
def transformerEncDecMethods : List String := ["forward", "get_padding_mask"]

/-- Constructed TransformerEncDec state. -/
structure TransformerEncDecM where
  max_seq_len : ℕ
  pad_idx : Option ℤ
  enc_emb : TransformerEmbeddingM
  dec_emb : TransformerEmbeddingM
  depth : ℕ
  heads : ℕ
  projInF : ℕ
  projOutF : ℕ
deriving DecidableEq

/-- The instance attributes TransformerEncDec.__init__ has assigned by the
time the tie_weights branch runs, in assignment order. -/
def transformerEncDecAttrs : List String :=
  ["max_seq_len", "pad_idx", "enc_emb", "dec_emb", "encoder", "decoder", "proj"]

/-- TransformerEncDec.__init__: builds both embeddings (default pos_enc
"absolute", dropout 0), encoder, decoder and the projection, then — only
when tie_weights is set — executes self.proj.weight = self.emb.emb.weight,
whose read of self.emb looks up an attribute this class never assigns
(its embedding attributes are enc_emb and dec_emb). -/
def transformerEncDecInit (enc_vocab_sz dec_vocab_sz dim depth heads max_seq_len : ℕ)
    (pad_idx : Option ℤ) (tie_weights : Bool) : Except String TransformerEncDecM :=
  (transformerEmbeddingInit enc_vocab_sz dim max_seq_len 0 "absolute").bind fun encE =>
    (transformerEmbeddingInit dec_vocab_sz dim max_seq_len 0 "absolute").bind fun decE =>
      let st : TransformerEncDecM :=
        ⟨max_seq_len, pad_idx, encE, decE, depth, heads, dim, dec_vocab_sz⟩
      if tie_weights then
        (pyGetattr (transformerEncDecAttrs ++ transformerEncDecMethods) "emb").bind
          fun _ => Except.ok st
      else Except.ok st

/-- C5: the code contradicts the claim: constructing a TransformerEncDec
with tie_weights true raises AttributeError instead of succeeding with the
projection tied to the target embedding table, because the tying line
reads the nonexistent attribute self.emb. -/
theorem C5_tie_weights_attribute_error :
    transformerEncDecInit 2 2 2 1 1 16 none true = Except.error "AttributeError: emb" := rfl

/-! ### Padding-mask derivation in TransformerEncDec.forward -/

/-- The helper default(val, d) of the source, for a non-function d:
val when it is not None, else d. -/
def pyDefault {α : Type} (val d : Option α) : Option α :=
  match val with
  | some v => some v
  | none => d

/-- TransformerEncDec.get_padding_mask: None when no pad index is
configured, else the elementwise boolean comparison ids ≠ pad_idx. -/
def getPaddingMask (padIdx : Option ℤ) (x : List (List ℤ)) : Option (List (List Bool)) :=
  match padIdx with
  | none => none
  | some p => some (x.map (fun row => row.map (fun i => i != p)))

/-- The mask TransformerEncDec.forward actually uses for either side: the
explicit mask argument defaulted with get_padding_mask of the ids. -/
def forwardMask (padIdx : Option ℤ) (explicit : Option (List (List Bool)))
    (ids : List (List ℤ)) : Option (List (List Bool)) :=
  pyDefault explicit (getPaddingMask padIdx ids)

/-- C7: whenever no explicit mask is passed to TransformerEncDec.forward,
the mask used is the derived padding mask: the elementwise ids ≠ pad_idx
when a pad index is configured, and None when none is. -/
theorem C7_padding_mask_derivation (p : ℤ) (ids : List (List ℤ)) :
    forwardMask (some p) none ids = some (ids.map (fun row => row.map (fun i => i != p))) ∧
      forwardMask none none ids = none :=
  ⟨rfl, rfl⟩

end ReformerFastai
